import Mathlib

/-!
Verification of the Day 5 "Print Queue" module (src/day05/src/lib.rs).

The embedding is shallow: Rust strings become `List Char`, `u32` becomes
`Nat` with an explicit `< 2^32` range check where the source performs one
(`str::parse::<u32>`), `Result` becomes `Except String`, and the two
`FxHashMap<u32, usize>` position maps become function-valued finite maps
`Nat → Option Nat` built by the same left fold over the enumerated sequence.
-/

namespace Day05

/-- Rust strings, embedded as their character lists. -/
abbrev Str := List Char

/-- Rust `str::split(sep)` for a one-character separator: the chunks between
occurrences of `sep`; always at least one chunk, empty chunks kept. -/
def splitOnChar (sep : Char) : Str → List Str
  | [] => [[]]
  | c :: rest =>
      if c = sep then [] :: splitOnChar sep rest
      else
        match splitOnChar sep rest with
        | [] => [[c]]
        | h :: t => (c :: h) :: t

/-- Rust `str::split("\n\n")` as used by `parse_input`: split at leftmost
non-overlapping occurrences of the two-character separator. -/
def splitOnNN : Str → List Str
  | [] => [[]]
  | '\n' :: '\n' :: rest => [] :: splitOnNN rest
  | c :: rest =>
      match splitOnNN rest with
      | [] => [[c]]
      | h :: t => (c :: h) :: t

/-- Rust `str::trim`: drop whitespace from both ends. -/
def trimStr (s : Str) : Str :=
  ((s.dropWhile Char.isWhitespace).reverse.dropWhile Char.isWhitespace).reverse

/-- Rust `str::lines`: split at every newline; a final newline terminates the
last line rather than opening an empty one, and a carriage return directly
before a newline is stripped. -/
def rustLines (s : Str) : List Str :=
  let parts := splitOnChar '\n' s
  let body := parts.dropLast.map (fun l => if l.getLast? = some '\r' then l.dropLast else l)
  match parts.getLast? with
  | none => body
  | some [] => body
  | some last => body ++ [last]

/-- Rust `str::parse::<u32>` with the `ParseIntError` display messages: the
empty string is rejected as such, an optional leading plus sign is allowed
before one or more decimal digits, any other character is an invalid digit,
and the value must fit in 32 bits. -/
def parseU32E (s : Str) : Except String Nat :=
  match s with
  | [] => Except.error "cannot parse integer from empty string"
  | _ =>
      let digits := match s with
        | '+' :: rest => rest
        | _ => s
      if digits.isEmpty then Except.error "invalid digit found in string"
      else if digits.all Char.isDigit then
        let n := digits.foldl (fun acc c => acc * 10 + (c.toNat - 48)) 0
        if n < 4294967296 then Except.ok n
        else Except.error "number too large to fit in target type"
      else Except.error "invalid digit found in string"

/-- Rust `str::parse::<u32>` viewed as an optional value; the well-formedness
predicates below are phrased through it. -/
def parseU32 (s : Str) : Option Nat :=
  (parseU32E s).toOption

/-- One rule line of `parse_input`: split on the pipe, trim both tokens,
require exactly two (else the format error names the offending line), parse
each as `u32`, the first failing parse error propagating. -/
def parseRuleLine (line : Str) : Except String (Nat × Nat) :=
  match (splitOnChar '|' line).map trimStr with
  | [a, b] =>
      match parseU32E a with
      | Except.error e => Except.error e
      | Except.ok x =>
          match parseU32E b with
          | Except.error e => Except.error e
          | Except.ok y => Except.ok (x, y)
  | _ => Except.error ("Rule must have format 'X|Y', found: " ++ line.asString)

/-- One sequence line of `parse_input`: comma-separated tokens, each trimmed
and parsed as `u32`, the first failing parse error propagating. -/
def parseSeqLine (line : Str) : Except String (List Nat) :=
  (splitOnChar ',' line).mapM (fun tok => parseU32E (trimStr tok))

/-- The section pass of `parse_input`: split the input on blank lines, trim
every section and drop the empty ones. -/
def sections (input : Str) : List Str :=
  ((splitOnNN input).map trimStr).filter (fun s => !s.isEmpty)

/-- Embedding of `parse_input` of src/day05/src/lib.rs: exactly two non-empty sections,
the first parsed line-by-line as rules, the second as page sequences. -/
def parse_input (input : Str) : Except String (List (Nat × Nat) × List (List Nat)) :=
  match sections input with
  | [rulesSection, sequencesSection] =>
      match (rustLines rulesSection).mapM parseRuleLine with
      | Except.error e => Except.error e
      | Except.ok rules =>
          match (rustLines sequencesSection).mapM parseSeqLine with
          | Except.error e => Except.error e
          | Except.ok seqs => Except.ok (rules, seqs)
  | _ => Except.error "Input must have exactly 2 sections"

/-- Embedding of `get_middle_page`: the element at index `len / 2`, an error on the empty
sequence. -/
def get_middle_page (sequence : List Nat) : Except String Nat :=
  match sequence.get? (sequence.length / 2) with
  | some page => Except.ok page
  | none => Except.error "Cannot get middle page of empty sequence"

/-- One step of the position-map loop of `is_valid_sequence`: given the pair
(first-occurrence map, last-occurrence map) and the enumerated element
`(i, page)`, insert `i` into the first map only when `page` is absent
(`entry(page).or_insert(i)`) and always overwrite in the last map. -/
def posStep (maps : (Nat → Option Nat) × (Nat → Option Nat)) (ip : Nat × Nat) :
    (Nat → Option Nat) × (Nat → Option Nat) :=
  (fun p => if p = ip.2 then some ((maps.1 ip.2).getD ip.1) else maps.1 p,
   fun p => if p = ip.2 then some ip.1 else maps.2 p)

/-- The position-map pass of `is_valid_sequence`: fold `posStep` over the
enumerated sequence starting from two empty maps. -/
def buildPosMaps (sequence : List Nat) : (Nat → Option Nat) × (Nat → Option Nat) :=
  sequence.enum.foldl posStep (fun _ => none, fun _ => none)

/-- Embedding of `is_valid_sequence`: every rule `(before, after)` passes when either page
is absent from the maps, or when the last position of `before` is strictly
below the first position of `after`. -/
def is_valid_sequence (sequence : List Nat) (rules : List (Nat × Nat)) : Bool :=
  let maps := buildPosMaps sequence
  rules.all (fun r =>
    match maps.2 r.1, maps.1 r.2 with
    | some lastBefore, some firstAfter => decide (lastBefore < firstAfter)
    | _, _ => true)

/-- Itertools `tuple_combinations::<(_, _)>` on a sequence: all value pairs
`(sequence[p], sequence[q])` with `p < q`, in iteration order. -/
def orderedPairs : List Nat → List (Nat × Nat)
  | [] => []
  | a :: rest => rest.map (fun b => (a, b)) ++ orderedPairs rest

/-- Embedding of `is_valid_sequence_naive`: for every in-order value pair `(i, j)` no rule
may demand `j` before `i`. -/
def is_valid_sequence_naive (sequence : List Nat) (rules : List (Nat × Nat)) : Bool :=
  (orderedPairs sequence).all (fun ij =>
    rules.all (fun r => decide (r.1 ≠ ij.2) || decide (r.2 ≠ ij.1)))

/-- Embedding of `solve_part1`: parse, keep the sequences `is_valid_sequence` accepts, sum
their middle pages, propagating any error. -/
def solve_part1 (input : Str) : Except String Nat :=
  match parse_input input with
  | Except.error e => Except.error e
  | Except.ok (rules, seqs) =>
      match (seqs.filter (fun s => is_valid_sequence s rules)).mapM get_middle_page with
      | Except.error e => Except.error e
      | Except.ok mids => Except.ok mids.sum

/-- Embedding of `solve_part1_naive`: the same pipeline through `is_valid_sequence_naive`. -/
def solve_part1_naive (input : Str) : Except String Nat :=
  match parse_input input with
  | Except.error e => Except.error e
  | Except.ok (rules, seqs) =>
      match (seqs.filter (fun s => is_valid_sequence_naive s rules)).mapM get_middle_page with
      | Except.error e => Except.error e
      | Except.ok mids => Except.ok mids.sum

/-- Index of the first occurrence of `p`, if any. -/
def firstOcc (p : Nat) : List Nat → Option Nat
  | [] => none
  | a :: rest => if a = p then some 0 else (firstOcc p rest).map (· + 1)

/-- Index of the last occurrence of `p`, if any. -/
def lastOcc (p : Nat) : List Nat → Option Nat
  | [] => none
  | a :: rest =>
      match lastOcc p rest with
      | some i => some (i + 1)
      | none => if a = p then some 0 else none

lemma get?_of_firstOcc {p : Nat} {l : List Nat} {i : Nat} (h : firstOcc p l = some i) :
    l.get? i = some p := by
  induction l generalizing i with
  | nil => simp [firstOcc] at h
  | cons a t ih =>
      rw [firstOcc] at h
      by_cases hap : a = p
      · simp [hap] at h
        subst hap h
        simp
      · simp [hap] at h
        obtain ⟨j, hj, hji⟩ := h
        subst hji
        simpa using ih hj

lemma get?_of_lastOcc {p : Nat} {l : List Nat} {i : Nat} (h : lastOcc p l = some i) :
    l.get? i = some p := by
  induction l generalizing i with
  | nil => simp [lastOcc] at h
  | cons a t ih =>
      rw [lastOcc] at h
      cases ht : lastOcc p t with
      | some j =>
          rw [ht] at h
          simp only [Option.some.injEq] at h
          subst h
          simpa using ih ht
      | none =>
          rw [ht] at h
          by_cases hap : a = p
          · simp [hap] at h
            subst hap
            simp [← h]
          · simp [hap] at h

lemma firstOcc_le_of_get? {p : Nat} {l : List Nat} {j : Nat} (h : l.get? j = some p) :
    ∃ i, firstOcc p l = some i ∧ i ≤ j := by
  induction l generalizing j with
  | nil => simp at h
  | cons a t ih =>
      by_cases hap : a = p
      · exact ⟨0, by simp [firstOcc, hap], Nat.zero_le j⟩
      · cases j with
        | zero =>
            simp at h
            exact absurd h hap
        | succ j' =>
            simp only [List.get?_cons_succ] at h
            obtain ⟨i, hi, hij⟩ := ih h
            exact ⟨i + 1, by simp [firstOcc, hap, hi], Nat.succ_le_succ hij⟩

lemma le_lastOcc_of_get? {p : Nat} {l : List Nat} {j : Nat} (h : l.get? j = some p) :
    ∃ i, lastOcc p l = some i ∧ j ≤ i := by
  induction l generalizing j with
  | nil => simp at h
  | cons a t ih =>
      cases j with
      | zero =>
          simp at h
          cases ht : lastOcc p t with
          | some k => exact ⟨k + 1, by simp [lastOcc, ht], Nat.zero_le _⟩
          | none => exact ⟨0, by simp [lastOcc, ht, h], Nat.le_refl 0⟩
      | succ j' =>
          simp only [List.get?_cons_succ] at h
          obtain ⟨i, hi, hij⟩ := ih h
          exact ⟨i + 1, by simp [lastOcc, hi], Nat.succ_le_succ hij⟩

lemma firstOcc_of_mem {p : Nat} {l : List Nat} (h : p ∈ l) : ∃ i, firstOcc p l = some i := by
  obtain ⟨n, hn⟩ := List.get?_of_mem h
  obtain ⟨i, hi, _⟩ := firstOcc_le_of_get? hn
  exact ⟨i, hi⟩

lemma lastOcc_of_mem {p : Nat} {l : List Nat} (h : p ∈ l) : ∃ i, lastOcc p l = some i := by
  obtain ⟨n, hn⟩ := List.get?_of_mem h
  obtain ⟨i, hi, _⟩ := le_lastOcc_of_get? hn
  exact ⟨i, hi⟩

lemma mem_of_firstOcc {p : Nat} {l : List Nat} {i : Nat} (h : firstOcc p l = some i) : p ∈ l :=
  List.get?_mem (get?_of_firstOcc h)

lemma mem_of_lastOcc {p : Nat} {l : List Nat} {i : Nat} (h : lastOcc p l = some i) : p ∈ l :=
  List.get?_mem (get?_of_lastOcc h)

lemma not_mem_of_lastOcc_none {p : Nat} {l : List Nat} (h : lastOcc p l = none) : p ∉ l := by
  intro hmem
  obtain ⟨i, hi⟩ := lastOcc_of_mem hmem
  rw [h] at hi
  exact Option.noConfusion hi

/-- When the first and last occurrence of `p` coincide, `p` occurs exactly
once. -/
lemma count_eq_one_of_firstOcc_eq_lastOcc {p : Nat} {l : List Nat} {i : Nat}
    (hf : firstOcc p l = some i) (hl : lastOcc p l = some i) : l.count p = 1 := by
  induction l generalizing i with
  | nil => simp [firstOcc] at hf
  | cons a t ih =>
      by_cases hap : a = p
      · subst hap
        rw [firstOcc] at hf
        simp at hf
        rw [lastOcc] at hl
        cases ht : lastOcc a t with
        | some k =>
            rw [ht] at hl
            simp [← hf] at hl
        | none =>
            have : a ∉ t := not_mem_of_lastOcc_none ht
            simp [List.count_cons, List.count_eq_zero.mpr this]
      · rw [firstOcc] at hf
        simp [hap] at hf
        obtain ⟨j, hj, hji⟩ := hf
        rw [lastOcc] at hl
        cases ht : lastOcc p t with
        | some k =>
            rw [ht] at hl
            simp only [Option.some.injEq] at hl
            have hkj : k = j := by omega
            subst hkj
            have := ih hj ht
            simpa [List.count_cons, hap] using this
        | none =>
            rw [ht] at hl
            simp [hap] at hl

/-- Running the position-map loop over the tail enumerated from `n`: the first
map keeps any earlier binding (`or_insert`) and otherwise records the offset
first occurrence; the last map overrides any earlier binding with the offset
last occurrence. -/
lemma foldl_posStep (l : List Nat) : ∀ (n : Nat) (f g : Nat → Option Nat) (p : Nat),
    (((List.enumFrom n l).foldl posStep (f, g)).1 p
        = match f p with
          | some v => some v
          | none => (firstOcc p l).map (n + ·)) ∧
    (((List.enumFrom n l).foldl posStep (f, g)).2 p
        = match lastOcc p l with
          | some i => some (n + i)
          | none => g p) := by
  induction l with
  | nil =>
      intro n f g p
      constructor
      · cases hfp : f p <;> simp [firstOcc, hfp]
      · simp [lastOcc]
  | cons a t ih =>
      intro n f g p
      constructor
      · show ((List.enumFrom (n + 1) t).foldl posStep
            (fun q => if q = a then some ((f a).getD n) else f q,
             fun q => if q = a then some n else g q)).1 p = _
        rw [(ih (n + 1) _ _ p).1]
        by_cases hpa : p = a
        · subst hpa
          cases hfa : f p <;> simp [firstOcc, hfa]
        · have hap : ¬ a = p := fun h => hpa h.symm
          cases hfp : f p with
          | some v => simp [hpa, hfp]
          | none =>
              simp only [hpa, if_false, hfp, firstOcc, hap]
              cases hft : firstOcc p t with
              | none => rfl
              | some i =>
                  show some (n + 1 + i) = some (n + (i + 1))
                  congr 1
                  omega
      · show ((List.enumFrom (n + 1) t).foldl posStep
            (fun q => if q = a then some ((f a).getD n) else f q,
             fun q => if q = a then some n else g q)).2 p = _
        rw [(ih (n + 1) _ _ p).2]
        cases ht : lastOcc p t with
        | some k =>
            simp only [lastOcc, ht]
            congr 1
            omega
        | none =>
            by_cases hpa : p = a
            · subst hpa
              simp [lastOcc, ht]
            · have hap : ¬ a = p := fun h => hpa h.symm
              simp [lastOcc, ht, hpa, hap]

/-- The first-position map of `is_valid_sequence` computes `firstOcc`. -/
lemma buildPosMaps_fst (l : List Nat) (p : Nat) : (buildPosMaps l).1 p = firstOcc p l := by
  show ((List.enumFrom 0 l).foldl posStep (fun _ => none, fun _ => none)).1 p = firstOcc p l
  rw [(foldl_posStep l 0 (fun _ => none) (fun _ => none) p).1]
  cases firstOcc p l <;> simp

/-- The last-position map of `is_valid_sequence` computes `lastOcc`. -/
lemma buildPosMaps_snd (l : List Nat) (p : Nat) : (buildPosMaps l).2 p = lastOcc p l := by
  show ((List.enumFrom 0 l).foldl posStep (fun _ => none, fun _ => none)).2 p = lastOcc p l
  rw [(foldl_posStep l 0 (fun _ => none) (fun _ => none) p).2]
  cases lastOcc p l <;> simp

/-- What the optimized validator checks of one rule: whenever both extremal
positions exist, the last position of the before-page is strictly below the
first position of the after-page. -/
def ruleOkOpt (sequence : List Nat) (r : Nat × Nat) : Prop :=
  ∀ i j, lastOcc r.1 sequence = some i → firstOcc r.2 sequence = some j → i < j

/-- What the naive validator checks of one rule: no occurrence of the
after-page strictly precedes an occurrence of the before-page. -/
def ruleOkNaive (sequence : List Nat) (r : Nat × Nat) : Prop :=
  ∀ p q, p < q → sequence.get? p = some r.2 → sequence.get? q = some r.1 → False

lemma is_valid_sequence_eq_true_iff (sequence : List Nat) (rules : List (Nat × Nat)) :
    is_valid_sequence sequence rules = true ↔ ∀ r ∈ rules, ruleOkOpt sequence r := by
  rw [is_valid_sequence, List.all_eq_true]
  refine forall₂_congr fun r hr => ?_
  rw [buildPosMaps_snd, buildPosMaps_fst]
  cases hl : lastOcc r.1 sequence with
  | none => simp [ruleOkOpt, hl]
  | some i =>
      cases hf : firstOcc r.2 sequence with
      | none => simp [ruleOkOpt, hf]
      | some j => simp [ruleOkOpt, hl, hf]

lemma mem_orderedPairs {l : List Nat} {x y : Nat} :
    (x, y) ∈ orderedPairs l ↔ ∃ p q, p < q ∧ l.get? p = some x ∧ l.get? q = some y := by
  induction l with
  | nil => simp [orderedPairs]
  | cons a t ih =>
      rw [orderedPairs]
      simp only [List.mem_append, List.mem_map, Prod.mk.injEq]
      constructor
      · rintro (⟨b, hb, hax, hby⟩ | hrec)
        · subst hax
          subst hby
          obtain ⟨m, hm⟩ := List.get?_of_mem hb
          exact ⟨0, m + 1, Nat.succ_pos m, by simp, by simpa using hm⟩
        · obtain ⟨p, q, hpq, hp, hq⟩ := ih.mp hrec
          exact ⟨p + 1, q + 1, Nat.succ_lt_succ hpq, by simpa using hp, by simpa using hq⟩
      · rintro ⟨p, q, hpq, hp, hq⟩
        cases p with
        | zero =>
            simp only [List.get?_cons_zero, Option.some.injEq] at hp
            cases q with
            | zero => exact absurd hpq (by omega)
            | succ q' =>
                simp only [List.get?_cons_succ] at hq
                exact Or.inl ⟨y, List.get?_mem hq, hp, rfl⟩
        | succ p' =>
            cases q with
            | zero => exact absurd hpq (by omega)
            | succ q' =>
                simp only [List.get?_cons_succ] at hp hq
                exact Or.inr (ih.mpr ⟨p', q', by omega, hp, hq⟩)

lemma is_valid_sequence_naive_eq_true_iff (sequence : List Nat) (rules : List (Nat × Nat)) :
    is_valid_sequence_naive sequence rules = true ↔ ∀ r ∈ rules, ruleOkNaive sequence r := by
  rw [is_valid_sequence_naive, List.all_eq_true]
  constructor
  · intro h r hr p q hpq hp hq
    have hmem : (r.2, r.1) ∈ orderedPairs sequence := mem_orderedPairs.mpr ⟨p, q, hpq, hp, hq⟩
    have hall := h _ hmem
    rw [List.all_eq_true] at hall
    have := hall r hr
    simp at this
  · intro h ij hij
    rw [List.all_eq_true]
    intro r hr
    obtain ⟨x, y⟩ := ij
    obtain ⟨p, q, hpq, hp, hq⟩ := mem_orderedPairs.mp hij
    by_cases h1 : r.1 = y
    · by_cases h2 : r.2 = x
      · subst h1
        subst h2
        exact absurd (h r hr p q hpq hp hq) id
      · simp [h2]
    · simp [h1]

/-- The two per-rule checks agree unless the rule is a self-rule `(x, x)`
whose page occurs exactly once in the sequence. -/
lemma ruleOkOpt_iff_ruleOkNaive (sequence : List Nat) (r : Nat × Nat)
    (h : r.1 = r.2 → sequence.count r.1 ≠ 1) :
    ruleOkOpt sequence r ↔ ruleOkNaive sequence r := by
  constructor
  · intro hopt p q hpq hp hq
    obtain ⟨j, hj, hjp⟩ := firstOcc_le_of_get? hp
    obtain ⟨i, hi, hqi⟩ := le_lastOcc_of_get? hq
    have := hopt i j hi hj
    omega
  · intro hnaive i j hi hj
    by_contra hij
    push_neg at hij
    rcases Nat.lt_or_ge j i with hlt | hge
    · exact hnaive j i hlt (get?_of_firstOcc hj) (get?_of_lastOcc hi)
    · have hji : j = i := by omega
      subst hji
      have h12 : r.1 = r.2 :=
        Option.some.inj ((get?_of_lastOcc hi).symm.trans (get?_of_firstOcc hj))
      have hcount := count_eq_one_of_firstOcc_eq_lastOcc (h12 ▸ hj) hi
      exact h h12 hcount

/-- Claim C1, counterexample: the two validators disagree on the sequence
`[1]` with the single self-rule `(1, 1)` — the optimized validator rejects
(the last and first positions of page 1 coincide, so `0 < 0` fails) while the
naive validator accepts (a one-element sequence has no ordered pairs). -/
theorem validators_differ_for_self_rule :
    is_valid_sequence [1] [(1, 1)] = false ∧
    is_valid_sequence_naive [1] [(1, 1)] = true ∧
    is_valid_sequence [1] [(1, 1)] ≠ is_valid_sequence_naive [1] [(1, 1)] := by
  refine ⟨rfl, rfl, ?_⟩
  decide

/-- Claim C1, amended: `is_valid_sequence` and `is_valid_sequence_naive`
return the same boolean on every sequence and rule list in which no rule is a
self-pair `(x, x)` whose page `x` occurs exactly once in the sequence. -/
theorem is_valid_sequence_eq_naive (sequence : List Nat) (rules : List (Nat × Nat))
    (h : ∀ r ∈ rules, r.1 = r.2 → sequence.count r.1 ≠ 1) :
    is_valid_sequence sequence rules = is_valid_sequence_naive sequence rules := by
  rw [Bool.eq_iff_iff, is_valid_sequence_eq_true_iff, is_valid_sequence_naive_eq_true_iff]
  exact forall₂_congr fun r hr => ruleOkOpt_iff_ruleOkNaive sequence r (h r hr)

/-- Witness for the amended claim C1 at a concrete input. -/
theorem is_valid_sequence_eq_naive_witness :
    is_valid_sequence [75, 47, 61, 53, 29] [(47, 53), (53, 29)]
      = is_valid_sequence_naive [75, 47, 61, 53, 29] [(47, 53), (53, 29)] :=
  is_valid_sequence_eq_naive _ _ (by decide)

/-- Claim C2: `is_valid_sequence` accepts exactly when every rule whose two
pages both occur in the sequence has the last occurrence of its before-page
strictly before the first occurrence of its after-page; rules with an absent
page impose no constraint. -/
theorem is_valid_sequence_extremal_spec (sequence : List Nat) (rules : List (Nat × Nat)) :
    is_valid_sequence sequence rules = true ↔
      ∀ r ∈ rules, r.1 ∈ sequence → r.2 ∈ sequence →
        ∃ i j, lastOcc r.1 sequence = some i ∧ firstOcc r.2 sequence = some j ∧ i < j := by
  rw [is_valid_sequence_eq_true_iff]
  refine forall₂_congr fun r hr => ?_
  constructor
  · intro hok h1 h2
    obtain ⟨i, hi⟩ := lastOcc_of_mem h1
    obtain ⟨j, hj⟩ := firstOcc_of_mem h2
    exact ⟨i, j, hi, hj, hok i j hi hj⟩
  · intro hex i j hi hj
    obtain ⟨i', j', hi', hj', hlt⟩ := hex (mem_of_lastOcc hi) (mem_of_firstOcc hj)
    rw [hi] at hi'
    rw [hj] at hj'
    obtain rfl := Option.some.inj hi'
    obtain rfl := Option.some.inj hj'
    exact hlt

lemma is_valid_sequence_append (sequence : List Nat) (r1 r2 : List (Nat × Nat)) :
    is_valid_sequence sequence (r1 ++ r2)
      = (is_valid_sequence sequence r1 && is_valid_sequence sequence r2) := by
  simp only [is_valid_sequence]
  exact List.all_append

lemma is_valid_sequence_naive_append (sequence : List Nat) (r1 r2 : List (Nat × Nat)) :
    is_valid_sequence_naive sequence (r1 ++ r2)
      = (is_valid_sequence_naive sequence r1 && is_valid_sequence_naive sequence r2) := by
  rw [Bool.eq_iff_iff, Bool.and_eq_true, is_valid_sequence_naive_eq_true_iff,
    is_valid_sequence_naive_eq_true_iff, is_valid_sequence_naive_eq_true_iff]
  constructor
  · intro h
    exact ⟨fun r hr => h r (List.mem_append_left _ hr),
           fun r hr => h r (List.mem_append_right _ hr)⟩
  · rintro ⟨h1, h2⟩ r hr
    rcases List.mem_append.mp hr with hm | hm
    · exact h1 r hm
    · exact h2 r hm

lemma is_valid_sequence_perm (sequence : List Nat) {r1 r2 : List (Nat × Nat)}
    (h : r1.Perm r2) :
    is_valid_sequence sequence r1 = is_valid_sequence sequence r2 := by
  rw [Bool.eq_iff_iff, is_valid_sequence_eq_true_iff, is_valid_sequence_eq_true_iff]
  exact ⟨fun hall r hr => hall r (h.mem_iff.mpr hr),
         fun hall r hr => hall r (h.mem_iff.mp hr)⟩

lemma is_valid_sequence_naive_perm (sequence : List Nat) {r1 r2 : List (Nat × Nat)}
    (h : r1.Perm r2) :
    is_valid_sequence_naive sequence r1 = is_valid_sequence_naive sequence r2 := by
  rw [Bool.eq_iff_iff, is_valid_sequence_naive_eq_true_iff,
    is_valid_sequence_naive_eq_true_iff]
  exact ⟨fun hall r hr => hall r (h.mem_iff.mpr hr),
         fun hall r hr => hall r (h.mem_iff.mp hr)⟩

/-- Claim C3: on the end-to-end scenario input with rules 47|53 and 53|29,
both solve paths return 61; the first sequence is valid, the second violates
rule (47, 53), and only the valid middle page 61 is summed. -/
theorem solve_part1_end_to_end :
    solve_part1 ("47|53\n53|29\n\n75,47,61,53,29\n53,47,61,29".toList) = Except.ok 61 ∧
    solve_part1_naive ("47|53\n53|29\n\n75,47,61,53,29\n53,47,61,29".toList) = Except.ok 61 ∧
    parse_input ("47|53\n53|29\n\n75,47,61,53,29\n53,47,61,29".toList)
      = Except.ok ([(47, 53), (53, 29)], [[75, 47, 61, 53, 29], [53, 47, 61, 29]]) ∧
    is_valid_sequence [75, 47, 61, 53, 29] [(47, 53), (53, 29)] = true ∧
    is_valid_sequence [53, 47, 61, 29] [(47, 53), (53, 29)] = false ∧
    is_valid_sequence [53, 47, 61, 29] [(47, 53)] = false ∧
    get_middle_page [75, 47, 61, 53, 29] = Except.ok 61 :=
  ⟨rfl, rfl, rfl, rfl, rfl, rfl, rfl⟩

/-- Claim C4: `get_middle_page` returns `Ok` of the element at index
`len / 2` for every non-empty sequence — the upper middle element for even
lengths — and an error on the empty sequence. -/
theorem get_middle_page_spec (sequence : List Nat) :
    (sequence ≠ [] →
      ∃ v, sequence.get? (sequence.length / 2) = some v
        ∧ get_middle_page sequence = Except.ok v) ∧
    (sequence = [] →
      get_middle_page sequence = Except.error "Cannot get middle page of empty sequence") ∧
    get_middle_page [1, 2, 3, 4] = Except.ok 3 ∧
    get_middle_page [75, 47, 61, 53, 29] = Except.ok 61 := by
  refine ⟨?_, ?_, rfl, rfl⟩
  · intro hne
    have hpos : 0 < sequence.length := List.length_pos.mpr hne
    have hlt : sequence.length / 2 < sequence.length := by omega
    have hv := List.get?_eq_get hlt
    exact ⟨_, hv, by rw [get_middle_page, hv]⟩
  · intro he
    subst he
    rfl

/-- Claim C7: the interleaved-duplicate sequence [1, 2, 1] violates rule
(1, 2) and the grouped-duplicate sequence [1, 1, 2, 2] satisfies it, under
both validators. -/
theorem duplicate_handling :
    is_valid_sequence [1, 2, 1] [(1, 2)] = false ∧
    is_valid_sequence_naive [1, 2, 1] [(1, 2)] = false ∧
    is_valid_sequence [1, 1, 2, 2] [(1, 2)] = true ∧
    is_valid_sequence_naive [1, 1, 2, 2] [(1, 2)] = true :=
  ⟨rfl, rfl, rfl, rfl⟩

/-- Claim C8: any sequence is valid against the empty rule list, and the
empty sequence is valid against any rule list, for both validators. -/
theorem vacuous_validity (sequence : List Nat) (rules : List (Nat × Nat)) :
    is_valid_sequence sequence [] = true ∧
    is_valid_sequence_naive sequence [] = true ∧
    is_valid_sequence [] rules = true ∧
    is_valid_sequence_naive [] rules = true := by
  refine ⟨rfl, ?_, ?_, rfl⟩
  · rw [is_valid_sequence_naive, List.all_eq_true]
    intro ij _
    rfl
  · rw [is_valid_sequence, List.all_eq_true]
    intro r _
    rfl

/-- Claim C10: for both validators, validity against a concatenation of rule
lists is the conjunction of the validities against each part; consequently
validity is invariant under permutation of the rules, and appending rules
never turns an invalid sequence valid. -/
theorem validity_rules_algebra (sequence : List Nat) (r1 r2 : List (Nat × Nat)) :
    (is_valid_sequence sequence (r1 ++ r2)
        = (is_valid_sequence sequence r1 && is_valid_sequence sequence r2)) ∧
    (is_valid_sequence_naive sequence (r1 ++ r2)
        = (is_valid_sequence_naive sequence r1 && is_valid_sequence_naive sequence r2)) ∧
    (r1.Perm r2 → is_valid_sequence sequence r1 = is_valid_sequence sequence r2) ∧
    (r1.Perm r2
        → is_valid_sequence_naive sequence r1 = is_valid_sequence_naive sequence r2) ∧
    (is_valid_sequence sequence r1 = false
        → is_valid_sequence sequence (r1 ++ r2) = false) ∧
    (is_valid_sequence_naive sequence r1 = false
        → is_valid_sequence_naive sequence (r1 ++ r2) = false) := by
  refine ⟨is_valid_sequence_append sequence r1 r2,
          is_valid_sequence_naive_append sequence r1 r2,
          fun h => is_valid_sequence_perm sequence h,
          fun h => is_valid_sequence_naive_perm sequence h, ?_, ?_⟩
  · intro h1
    rw [is_valid_sequence_append, h1]
    rfl
  · intro h1
    rw [is_valid_sequence_naive_append, h1]
    rfl

lemma except_bind_ok {α β : Type} (a : α) (g : α → Except String β) :
    (Except.ok a >>= g) = g a := rfl

lemma except_bind_error {α β : Type} (e : String) (g : α → Except String β) :
    ((Except.error e : Except String α) >>= g) = Except.error e := rfl

/-- A `try_collect` whose element parses all succeed with prescribed values
returns the list of those values. -/
lemma mapM_ok_of_forall {α β : Type} (f : α → Except String β) (g : α → β) :
    ∀ l : List α, (∀ x ∈ l, f x = Except.ok (g x)) → l.mapM f = Except.ok (l.map g) := by
  intro l
  induction l with
  | nil => intro _; rfl
  | cons a t ih =>
      intro h
      rw [List.mapM_cons, h a (List.mem_cons_self a t),
        ih (fun x hx => h x (List.mem_cons_of_mem a hx))]
      rfl

/-- A `try_collect` whose element parses all succeed returns some list. -/
lemma mapM_isOk_of_forall {α β : Type} (f : α → Except String β) :
    ∀ l : List α, (∀ x ∈ l, ∃ y, f x = Except.ok y) → ∃ ys, l.mapM f = Except.ok ys := by
  intro l
  induction l with
  | nil => intro _; exact ⟨[], rfl⟩
  | cons a t ih =>
      intro h
      obtain ⟨b, hb⟩ := h a (List.mem_cons_self a t)
      obtain ⟨bs, hbs⟩ := ih (fun x hx => h x (List.mem_cons_of_mem a hx))
      exact ⟨b :: bs, by rw [List.mapM_cons, hb, except_bind_ok, hbs, except_bind_ok]; rfl⟩

/-- Inversion of a successful `try_collect`: the results are as long as the
inputs and each comes from a successful element parse. -/
lemma mapM_ok_inv {α β : Type} (f : α → Except String β) :
    ∀ (l : List α) (ys : List β), l.mapM f = Except.ok ys →
      ys.length = l.length ∧ ∀ y ∈ ys, ∃ x ∈ l, f x = Except.ok y := by
  intro l
  induction l with
  | nil =>
      intro ys h
      have h' : Except.ok ([] : List β) = Except.ok ys := h
      injection h' with h''
      subst h''
      simp
  | cons a t ih =>
      intro ys h
      rw [List.mapM_cons] at h
      cases hfa : f a with
      | error e =>
          simp only [hfa, except_bind_error] at h
          exact Except.noConfusion h
      | ok b =>
          cases hmt : t.mapM f with
          | error e =>
              simp only [hfa, except_bind_ok, hmt, except_bind_error] at h
              exact Except.noConfusion h
          | ok bs =>
              simp only [hfa, except_bind_ok, hmt, except_bind_ok] at h
              have h' : Except.ok (b :: bs) = Except.ok ys := h
              injection h' with h''
              subst h''
              obtain ⟨hlen, hmem⟩ := ih bs hmt
              refine ⟨by simp [hlen], ?_⟩
              intro y hy
              rcases List.mem_cons.mp hy with rfl | hy'
              · exact ⟨a, List.mem_cons_self a t, hfa⟩
              · obtain ⟨x, hx, hfx⟩ := hmem y hy'
                exact ⟨x, List.mem_cons_of_mem a hx, hfx⟩

/-- A successful `try_collect` means every element parse succeeded. -/
lemma mapM_ok_forall_isOk {α β : Type} (f : α → Except String β) :
    ∀ (l : List α) (ys : List β), l.mapM f = Except.ok ys →
      ∀ x ∈ l, ∃ y, f x = Except.ok y := by
  intro l
  induction l with
  | nil =>
      intro ys _ x hx
      exact absurd hx (List.not_mem_nil x)
  | cons a t ih =>
      intro ys h x hx
      rw [List.mapM_cons] at h
      cases hfa : f a with
      | error e =>
          simp only [hfa, except_bind_error] at h
          exact Except.noConfusion h
      | ok b =>
          cases hmt : t.mapM f with
          | error e =>
              simp only [hfa, except_bind_ok, hmt, except_bind_error] at h
              exact Except.noConfusion h
          | ok bs =>
              rcases List.mem_cons.mp hx with rfl | hx'
              · exact ⟨b, hfa⟩
              · exact ih bs hmt x hx'

lemma parseU32E_ok_of_some {s : Str} {n : Nat} (h : parseU32 s = some n) :
    parseU32E s = Except.ok n := by
  rw [parseU32] at h
  cases he : parseU32E s with
  | error e =>
      rw [he] at h
      exact Option.noConfusion h
  | ok m =>
      rw [he] at h
      have h' : some m = some n := h
      injection h' with h''
      rw [h'']

lemma parseU32_some_of_ok {s : Str} {n : Nat} (h : parseU32E s = Except.ok n) :
    parseU32 s = some n := by
  rw [parseU32, h]
  rfl

/-- A rule line as the spec describes a well-formed one: exactly two
pipe-delimited tokens, each parsing as a non-negative integer after
trimming. -/
def goodRuleLine (line : Str) : Bool :=
  match (splitOnChar '|' line).map trimStr with
  | [a, b] => (parseU32 a).isSome && (parseU32 b).isSome
  | _ => false

/-- The rule pair a well-formed rule line denotes. -/
def ruleOfLine (line : Str) : Nat × Nat :=
  match (splitOnChar '|' line).map trimStr with
  | [a, b] => ((parseU32 a).getD 0, (parseU32 b).getD 0)
  | _ => (0, 0)

/-- A sequence line as the spec describes a well-formed one: comma-separated
tokens, each parsing as a non-negative integer after trimming. -/
def goodSeqLine (line : Str) : Bool :=
  (splitOnChar ',' line).all (fun tok => (parseU32 (trimStr tok)).isSome)

/-- The page sequence a well-formed sequence line denotes. -/
def seqOfLine (line : Str) : List Nat :=
  (splitOnChar ',' line).map (fun tok => (parseU32 (trimStr tok)).getD 0)

lemma parseRuleLine_ok {line : Str} (h : goodRuleLine line = true) :
    parseRuleLine line = Except.ok (ruleOfLine line) := by
  rw [goodRuleLine] at h
  rw [parseRuleLine, ruleOfLine]
  cases hsp : (splitOnChar '|' line).map trimStr with
  | nil =>
      rw [hsp] at h
      simp at h
  | cons a t1 =>
      cases t1 with
      | nil =>
          rw [hsp] at h
          simp at h
      | cons b t2 =>
          cases t2 with
          | cons c t3 =>
              rw [hsp] at h
              simp at h
          | nil =>
              rw [hsp] at h
              simp only [Bool.and_eq_true, Option.isSome_iff_exists] at h
              obtain ⟨⟨x, hx⟩, ⟨y, hy⟩⟩ := h
              show (match parseU32E a with
                    | Except.error e => Except.error e
                    | Except.ok u =>
                        match parseU32E b with
                        | Except.error e => Except.error e
                        | Except.ok v => Except.ok (u, v))
                  = Except.ok ((parseU32 a).getD 0, (parseU32 b).getD 0)
              rw [parseU32E_ok_of_some hx, parseU32E_ok_of_some hy, hx, hy]
              rfl

lemma parseSeqLine_ok {line : Str} (h : goodSeqLine line = true) :
    parseSeqLine line = Except.ok (seqOfLine line) := by
  rw [goodSeqLine, List.all_eq_true] at h
  rw [parseSeqLine, seqOfLine]
  apply mapM_ok_of_forall
  intro tok htok
  obtain ⟨n, hn⟩ := Option.isSome_iff_exists.mp (h tok htok)
  rw [parseU32E_ok_of_some hn, hn]
  rfl

/-- Claim C6: on every well-formed input — exactly two non-empty blank-line
separated sections, every rule line exactly two pipe-delimited integer tokens
with optional surrounding whitespace, every sequence line a comma-separated
list of integer tokens — `parse_input` succeeds and returns exactly the
denoted rule pairs and page sequences. -/
theorem parse_input_wellformed (input r s : Str)
    (hs : sections input = [r, s])
    (hr : (rustLines r).all goodRuleLine = true)
    (hq : (rustLines s).all goodSeqLine = true) :
    parse_input input
      = Except.ok ((rustLines r).map ruleOfLine, (rustLines s).map seqOfLine) := by
  rw [List.all_eq_true] at hr hq
  rw [parse_input, hs]
  show (match (rustLines r).mapM parseRuleLine with
        | Except.error e => Except.error e
        | Except.ok rules =>
            match (rustLines s).mapM parseSeqLine with
            | Except.error e => Except.error e
            | Except.ok seqs => Except.ok (rules, seqs))
      = Except.ok ((rustLines r).map ruleOfLine, (rustLines s).map seqOfLine)
  rw [mapM_ok_of_forall parseRuleLine ruleOfLine _
      (fun line hl => parseRuleLine_ok (hr line hl)),
    mapM_ok_of_forall parseSeqLine seqOfLine _
      (fun line hl => parseSeqLine_ok (hq line hl))]

/-- Witness for claim C6 at the spec round-trip input. -/
theorem parse_input_wellformed_witness :
    parse_input ("47|53\n\n75,47,53".toList) = Except.ok ([(47, 53)], [[75, 47, 53]]) :=
  (parse_input_wellformed ("47|53\n\n75,47,53".toList)
    ("47|53".toList) ("75,47,53".toList) rfl rfl rfl).trans rfl

/-- Rust `str::split` always yields at least one chunk. -/
lemma splitOnChar_ne_nil (sep : Char) (s : Str) : splitOnChar sep s ≠ [] := by
  cases s with
  | nil => simp [splitOnChar]
  | cons c rest =>
      rw [splitOnChar]
      by_cases hc : c = sep
      · simp [hc]
      · simp only [hc, if_false]
        cases splitOnChar sep rest <;> simp

/-- The extractor `get_middle_page` succeeds on every non-empty sequence. -/
lemma get_middle_page_isOk {s : List Nat} (h : s ≠ []) :
    ∃ v, get_middle_page s = Except.ok v := by
  have hpos : 0 < s.length := List.length_pos.mpr h
  have hlt : s.length / 2 < s.length := by omega
  exact ⟨_, by rw [get_middle_page, List.get?_eq_get hlt]⟩

/-- A sequence line parses to a non-empty sequence: splitting on commas
yields at least one token and every token contributes one page. -/
lemma parseSeqLine_ok_ne_nil {line : Str} {s : List Nat}
    (h : parseSeqLine line = Except.ok s) : s ≠ [] := by
  rw [parseSeqLine] at h
  obtain ⟨hlen, -⟩ := mapM_ok_inv _ _ _ h
  intro hnil
  subst hnil
  simp only [List.length_nil] at hlen
  exact splitOnChar_ne_nil ',' line (List.length_eq_zero.mp hlen.symm)

/-- Inversion of a successful `parse_input`: there are exactly two non-empty
sections and both line parses succeed. -/
lemma parse_input_ok_inv {input : Str} {rules : List (Nat × Nat)} {seqs : List (List Nat)}
    (h : parse_input input = Except.ok (rules, seqs)) :
    ∃ r s, sections input = [r, s]
      ∧ (rustLines r).mapM parseRuleLine = Except.ok rules
      ∧ (rustLines s).mapM parseSeqLine = Except.ok seqs := by
  rw [parse_input] at h
  cases hs : sections input with
  | nil =>
      rw [hs] at h
      exact Except.noConfusion h
  | cons r t1 =>
      cases t1 with
      | nil =>
          rw [hs] at h
          exact Except.noConfusion h
      | cons s t2 =>
          cases t2 with
          | cons u t3 =>
              rw [hs] at h
              exact Except.noConfusion h
          | nil =>
              rw [hs] at h
              have h' : (match (rustLines r).mapM parseRuleLine with
                  | Except.error e => Except.error e
                  | Except.ok rulesAcc =>
                      match (rustLines s).mapM parseSeqLine with
                      | Except.error e => Except.error e
                      | Except.ok seqsAcc => Except.ok (rulesAcc, seqsAcc))
                  = Except.ok (rules, seqs) := h
              cases hmr : (rustLines r).mapM parseRuleLine with
              | error e =>
                  rw [hmr] at h'
                  exact Except.noConfusion h'
              | ok rulesAcc =>
                  rw [hmr] at h'
                  cases hms : (rustLines s).mapM parseSeqLine with
                  | error e =>
                      rw [hms] at h'
                      exact Except.noConfusion h'
                  | ok seqsAcc =>
                      rw [hms] at h'
                      have h'' : Except.ok ((rulesAcc, seqsAcc) : List (Nat × Nat) × List (List Nat))
                          = Except.ok (rules, seqs) := h'
                      injection h'' with h3
                      obtain ⟨h4, h5⟩ := Prod.mk.injEq .. ▸ h3
                      exact ⟨r, s, rfl, h4 ▸ hmr, h5 ▸ hms⟩

/-- Claim C9: every sequence a successful `parse_input` produces is
non-empty, so the empty-sequence error of `get_middle_page` is unreachable
and both solve paths succeed whenever parsing succeeds. -/
theorem parsed_sequences_nonempty (input : Str) (rules : List (Nat × Nat))
    (seqs : List (List Nat)) (h : parse_input input = Except.ok (rules, seqs)) :
    (∀ s ∈ seqs, s ≠ []) ∧
    (∃ n, solve_part1 input = Except.ok n) ∧
    (∃ n, solve_part1_naive input = Except.ok n) := by
  obtain ⟨r, s, hs, hmr, hms⟩ := parse_input_ok_inv h
  have hne : ∀ q ∈ seqs, q ≠ [] := by
    intro q hq
    obtain ⟨-, hmem⟩ := mapM_ok_inv _ _ _ hms
    obtain ⟨line, -, hline⟩ := hmem q hq
    exact parseSeqLine_ok_ne_nil hline
  refine ⟨hne, ?_, ?_⟩
  · obtain ⟨ys, hys⟩ := mapM_isOk_of_forall get_middle_page
      (seqs.filter (fun q => is_valid_sequence q rules))
      (fun q hq => get_middle_page_isOk (hne q (List.mem_of_mem_filter hq)))
    have hsolve : solve_part1 input
        = match (seqs.filter (fun q => is_valid_sequence q rules)).mapM get_middle_page with
          | Except.error e => Except.error e
          | Except.ok mids => Except.ok mids.sum := by
      rw [solve_part1, h]
    exact ⟨ys.sum, by rw [hsolve, hys]⟩
  · obtain ⟨ys, hys⟩ := mapM_isOk_of_forall get_middle_page
      (seqs.filter (fun q => is_valid_sequence_naive q rules))
      (fun q hq => get_middle_page_isOk (hne q (List.mem_of_mem_filter hq)))
    have hsolve : solve_part1_naive input
        = match (seqs.filter (fun q => is_valid_sequence_naive q rules)).mapM get_middle_page with
          | Except.error e => Except.error e
          | Except.ok mids => Except.ok mids.sum := by
      rw [solve_part1_naive, h]
    exact ⟨ys.sum, by rw [hsolve, hys]⟩

/-- Witness for claim C9 at a concrete parsed input. -/
theorem parsed_sequences_nonempty_witness :
    (∀ s ∈ [[75, 47, 53]], s ≠ ([] : List Nat)) ∧
    (∃ n, solve_part1 ("47|53\n\n75,47,53".toList) = Except.ok n) ∧
    (∃ n, solve_part1_naive ("47|53\n\n75,47,53".toList) = Except.ok n) :=
  parsed_sequences_nonempty ("47|53\n\n75,47,53".toList) [(47, 53)] [[75, 47, 53]] rfl

/-- The format error of `parseRuleLine` fires on every line that does not
split into exactly two pipe-delimited tokens, and it names that line. -/
lemma parseRuleLine_format_error {line : Str}
    (h : ((splitOnChar '|' line).map trimStr).length ≠ 2) :
    parseRuleLine line
      = Except.error ("Rule must have format 'X|Y', found: " ++ line.asString) := by
  rw [parseRuleLine]
  cases hsp : (splitOnChar '|' line).map trimStr with
  | nil => rfl
  | cons a t1 =>
      cases t1 with
      | nil => rfl
      | cons b t2 =>
          cases t2 with
          | nil =>
              exfalso
              apply h
              rw [hsp]
              rfl
          | cons c t3 => rfl

/-- A successful `parseRuleLine` only happens on a well-formed rule line. -/
lemma goodRuleLine_of_ok {line : Str} {y : Nat × Nat}
    (h : parseRuleLine line = Except.ok y) : goodRuleLine line = true := by
  rw [parseRuleLine] at h
  rw [goodRuleLine]
  cases hsp : (splitOnChar '|' line).map trimStr with
  | nil =>
      rw [hsp] at h
      exact Except.noConfusion h
  | cons a t1 =>
      cases t1 with
      | nil =>
          rw [hsp] at h
          exact Except.noConfusion h
      | cons b t2 =>
          cases t2 with
          | cons c t3 =>
              rw [hsp] at h
              exact Except.noConfusion h
          | nil =>
              rw [hsp] at h
              have h' : (match parseU32E a with
                  | Except.error e => Except.error e
                  | Except.ok x =>
                      match parseU32E b with
                      | Except.error e => Except.error e
                      | Except.ok yv => Except.ok ((x, yv) : Nat × Nat))
                  = Except.ok y := h
              cases ha : parseU32E a with
              | error e =>
                  rw [ha] at h'
                  exact Except.noConfusion h'
              | ok x =>
                  rw [ha] at h'
                  cases hb : parseU32E b with
                  | error e =>
                      rw [hb] at h'
                      exact Except.noConfusion h'
                  | ok yv =>
                      show ((parseU32 a).isSome && (parseU32 b).isSome) = true
                      rw [parseU32_some_of_ok ha, parseU32_some_of_ok hb]
                      rfl

/-- A successful `parseSeqLine` only happens on a well-formed sequence
line. -/
lemma goodSeqLine_of_ok {line : Str} {s : List Nat}
    (h : parseSeqLine line = Except.ok s) : goodSeqLine line = true := by
  rw [parseSeqLine] at h
  rw [goodSeqLine, List.all_eq_true]
  intro tok htok
  obtain ⟨y, hy⟩ := mapM_ok_forall_isOk _ _ _ h tok htok
  rw [parseU32_some_of_ok hy]
  rfl

/-- Any unparseable token makes its whole sequence line fail. -/
lemma parseSeqLine_error_of_bad_token {line tok : Str}
    (htok : tok ∈ splitOnChar ',' line) (hbad : parseU32 (trimStr tok) = none) :
    ∃ e, parseSeqLine line = Except.error e := by
  cases hp : parseSeqLine line with
  | error e => exact ⟨e, rfl⟩
  | ok s =>
      exfalso
      rw [parseSeqLine] at hp
      obtain ⟨y, hy⟩ := mapM_ok_forall_isOk _ _ _ hp tok htok
      rw [parseU32_some_of_ok hy] at hbad
      exact Option.noConfusion hbad

/-- Any malformed rule line makes the whole parse fail. -/
lemma parse_input_error_of_bad_rule_line {input r s line : Str}
    (hs : sections input = [r, s]) (hl : line ∈ rustLines r)
    (hbad : goodRuleLine line = false) :
    ∃ e, parse_input input = Except.error e := by
  cases hp : parse_input input with
  | error e => exact ⟨e, rfl⟩
  | ok v =>
      exfalso
      obtain ⟨rules, seqs⟩ := v
      obtain ⟨r', s', hs', hmr, hms⟩ := parse_input_ok_inv hp
      rw [hs] at hs'
      injection hs' with h1 h2
      injection h2 with h2 h3
      subst h1
      obtain ⟨y, hy⟩ := mapM_ok_forall_isOk _ _ _ hmr line hl
      rw [goodRuleLine_of_ok hy] at hbad
      exact Bool.noConfusion hbad

/-- Any malformed sequence line makes the whole parse fail. -/
lemma parse_input_error_of_bad_seq_line {input r s line : Str}
    (hs : sections input = [r, s]) (hl : line ∈ rustLines s)
    (hbad : goodSeqLine line = false) :
    ∃ e, parse_input input = Except.error e := by
  cases hp : parse_input input with
  | error e => exact ⟨e, rfl⟩
  | ok v =>
      exfalso
      obtain ⟨rules, seqs⟩ := v
      obtain ⟨r', s', hs', hmr, hms⟩ := parse_input_ok_inv hp
      rw [hs] at hs'
      injection hs' with h1 h2
      injection h2 with h2 h3
      subst h2
      obtain ⟨y, hy⟩ := mapM_ok_forall_isOk _ _ _ hms line hl
      rw [goodSeqLine_of_ok hy] at hbad
      exact Bool.noConfusion hbad

/-- Claim C5: `parse_input` fails exactly in the spec's malformed cases:
every input whose blank-line split has other than two non-empty sections
fails with the section error (in particular one with no blank-line
separator); every rule line that does not split into exactly two
pipe-delimited tokens fails with the format error naming that line, and any
input containing such a rule line fails; every sequence token that does not
parse as a non-negative integer fails its line, and any input containing a
malformed sequence line fails; the spec's three concrete examples are
computed. -/
theorem parse_input_malformed :
    (∀ input : Str, (sections input).length ≠ 2
        → parse_input input = Except.error "Input must have exactly 2 sections") ∧
    (∀ line : Str, ((splitOnChar '|' line).map trimStr).length ≠ 2
        → parseRuleLine line
            = Except.error ("Rule must have format 'X|Y', found: " ++ line.asString)) ∧
    (∀ input r s line : Str, sections input = [r, s] → line ∈ rustLines r
        → goodRuleLine line = false → ∃ e, parse_input input = Except.error e) ∧
    (∀ line tok : Str, tok ∈ splitOnChar ',' line → parseU32 (trimStr tok) = none
        → ∃ e, parseSeqLine line = Except.error e) ∧
    (∀ input r s line : Str, sections input = [r, s] → line ∈ rustLines s
        → goodSeqLine line = false → ∃ e, parse_input input = Except.error e) ∧
    parse_input ("47|53\n75,47,53".toList)
      = Except.error "Input must have exactly 2 sections" ∧
    parse_input ("47\n\n75,47,53".toList)
      = Except.error "Rule must have format 'X|Y', found: 47" ∧
    parse_input ("47|53\n\n75,abc,53".toList)
      = Except.error "invalid digit found in string" := by
  refine ⟨?_, fun line h => parseRuleLine_format_error h,
    fun input r s line hs hl hb => parse_input_error_of_bad_rule_line hs hl hb,
    fun line tok ht hb => parseSeqLine_error_of_bad_token ht hb,
    fun input r s line hs hl hb => parse_input_error_of_bad_seq_line hs hl hb,
    rfl, rfl, rfl⟩
  intro input hlen
  rw [parse_input]
  cases hs : sections input with
  | nil => rfl
  | cons s1 t1 =>
      cases t1 with
      | nil => rfl
      | cons s2 t2 =>
          cases t2 with
          | nil =>
              exfalso
              apply hlen
              rw [hs]
              rfl
          | cons s3 t3 => rfl

end Day05
